import Mathlib

set_option maxRecDepth 8000

/-!
Shallow embedding of the memo-parsing and inventory-reconciliation core of
`src/app.py` (jewelry-inventory-app).

The parser `parse_items_from_ocr_text` and its two regexes `ITEM_RE` and
`MEMO_RE` are embedded as character-level matchers with Python `re`
semantics (word boundaries `\b`, greedy quantifiers with backtracking,
leftmost match), restricted to the ASCII character ranges the catalog data
uses.  The reconciliation step `apply_updates` and the duplicate check
`memo_already_processed` are embedded as pure functions; the external
spreadsheet is passed in as an association-list snapshot, and the single
clock reading `now_str()` taken inside `apply_updates` is passed in as the
explicit argument `ts`.  Failures raised as `ValueError` in the source are
modelled as structured `Except` errors carrying exactly the data the
source interpolates into the exception message.
-/

/-- Python `\w` (word character), ASCII range: letter, digit or underscore. -/
def isWordChar (c : Char) : Bool := c.isAlphanum || c = '_'

/-- Python `\s` (whitespace), ASCII range. -/
def isSpaceChar (c : Char) : Bool :=
  c = ' ' || c = '\t' || c = '\n' || c = '\r' || c = '\x0b' || c = '\x0c'

/-- A `\b` word boundary holds before a word character at this scan
position iff the previous character (if any) is not a word character. -/
def boundaryBefore : Option Char → Bool
  | none => true
  | some p => !(isWordChar p)

/-- A `\b` word boundary between a last matched character `a` and the
following character (`none` at end of input). -/
def bdryOk (a : Char) (nxt : Option Char) : Bool :=
  match nxt with
  | none => isWordChar a
  | some d => isWordChar a != isWordChar d

/-- The following character is absent or not a word character (trailing
`\b` after a word character). -/
def noWordAfter : Option Char → Bool
  | none => true
  | some d => !(isWordChar d)

/-- Greedy `\s*`. -/
def dropSpaces (l : List Char) : List Char := l.dropWhile isSpaceChar

/-- Character class `[A-Z0-9\-]` under `re.I`. -/
def classChar (c : Char) : Bool := c.isAlphanum || c = '-'

/-- Python `str.strip()` on a character list. -/
def stripChars (l : List Char) : List Char :=
  ((l.dropWhile isSpaceChar).reverse.dropWhile isSpaceChar).reverse

/-- Python `str.strip()`. -/
def stripStr (s : String) : String := String.mk (stripChars s.data)

/-- Python `str.splitlines()` restricted to `\n` separators (any `\r` is
removed by the `strip()` every use site applies). -/
def splitNl : List Char → List (List Char)
  | [] => [[]]
  | c :: cs =>
    if c = '\n' then [] :: splitNl cs
    else
      match splitNl cs with
      | l :: ls => (c :: l) :: ls
      | [] => [[c]]

/-- `needle` is a prefix of `hay` (character lists). -/
def chStarts : List Char → List Char → Bool
  | [], _ => true
  | _ :: _, [] => false
  | a :: as, b :: bs => a == b && chStarts as bs

/-- Python `needle in hay` substring test on character lists. -/
def containsSub (needle : List Char) : List Char → Bool
  | [] => needle.isEmpty
  | c :: cs => chStarts needle (c :: cs) || containsSub needle cs

/-- Decimal value of a digit run, as computed by Python `int`. -/
def digitsToNat (l : List Char) : Nat :=
  l.foldl (fun n c => n * 10 + (c.toNat - '0'.toNat)) 0

/-- Backtracking for the trailing `\b` of a greedy `([A-Z0-9\-]+)\b`:
given the maximal class run reversed and the character following it, drop
characters from the end until the boundary holds; `none` when even a
one-character capture has no boundary. -/
def shrinkTok : List Char → Option Char → Option (List Char)
  | [], _ => none
  | a :: as, nxt => if bdryOk a nxt then some (a :: as) else shrinkTok as (some a)

/-- Match `([A-Z0-9\-]+)\b` (under `re.I`) at the head of `l`. -/
def captureTok (l : List Char) : Option (List Char) :=
  (shrinkTok (l.takeWhile classChar).reverse (l.dropWhile classChar).head?).map List.reverse

/-- The `[:\-]?\s*([A-Z0-9\-]+)\b` tail of `MEMO_RE`, starting after
`#\s*`: the greedy optional separator is tried first, and on failure the
engine backtracks to an empty separator. -/
def memoCapRest : List Char → Option (List Char)
  | [] => none
  | s :: r3 =>
    if s = ':' ∨ s = '-' then
      match captureTok (dropSpaces r3) with
      | some tok => some tok
      | none => captureTok (s :: r3)
    else captureTok (s :: r3)

/-- Match `MEMO_RE = \bMemo\s*#\s*[:\-]?\s*([A-Z0-9\-]+)\b` (re.I) at the
head of `l`, returning the captured group; the leading `\b` is checked by
the caller. -/
def matchMemoAt : List Char → Option (List Char)
  | a :: b :: c :: d :: rest =>
    if a.toLower = 'm' ∧ b.toLower = 'e' ∧ c.toLower = 'm' ∧ d.toLower = 'o' then
      match dropSpaces rest with
      | '#' :: r2 => memoCapRest (dropSpaces r2)
      | _ => none
    else none
  | _ => none

/-- `re.search` scan for `MEMO_RE`: leftmost start position wins; `prev`
is the character before the current position, for the leading `\b`. -/
def extractMemoFrom : Option Char → List Char → Option (List Char)
  | _, [] => none
  | prev, c :: cs =>
    match (if boundaryBefore prev then matchMemoAt (c :: cs) else none) with
    | some tok => some tok
    | none => extractMemoFrom (some c) cs

/-- The `(?:BR|BS|GB)` alternation of `ITEM_RE`, case-insensitively. -/
def codeHeadOk (a b : Char) : Bool :=
  (a.toLower = 'b' && b.toLower = 'r') || (a.toLower = 'b' && b.toLower = 's') ||
    (a.toLower = 'g' && b.toLower = 'b')

/-- Match `ITEM_RE = \b(?:BR|BS|GB)[2-8][YW]-14K(?:-(?:1|2|3|4))?\b`
(re.I) at the head of the list, returning the matched span; the greedy
optional finish suffix is tried first and dropped if its trailing `\b`
fails (the fallback always has its `\b`, since `-` follows `K`).  The
leading `\b` is checked by the caller. -/
def matchItemAt : List Char → Option (List Char)
  | c0 :: c1 :: c2 :: c3 :: c4 :: c5 :: c6 :: c7 :: rest =>
    if codeHeadOk c0 c1 = true ∧ '2' ≤ c2 ∧ c2 ≤ '8' ∧ (c3.toLower = 'y' ∨ c3.toLower = 'w') ∧
        c4 = '-' ∧ c5 = '1' ∧ c6 = '4' ∧ c7.toLower = 'k' then
      match rest with
      | '-' :: d :: rest2 =>
        if '1' ≤ d ∧ d ≤ '4' ∧ noWordAfter rest2.head? = true then
          some [c0, c1, c2, c3, c4, c5, c6, c7, '-', d]
        else some [c0, c1, c2, c3, c4, c5, c6, c7]
      | _ =>
        if noWordAfter rest.head? = true then some [c0, c1, c2, c3, c4, c5, c6, c7]
        else none
    else none
  | _ => none

/-- `re.search` scan for `ITEM_RE`. -/
def searchItemFrom : Option Char → List Char → Option (List Char)
  | _, [] => none
  | prev, c :: cs =>
    match (if boundaryBefore prev then matchItemAt (c :: cs) else none) with
    | some span => some span
    | none => searchItemFrom (some c) cs

/-- `re.search(r"\b(\d+)\b", ln)` followed by `int(...)`: the first
word-bounded digit run.  A maximal run whose trailing `\b` fails cannot be
rescued by backtracking (digit against digit is never a boundary) and no
start inside a run has a leading `\b`, so the scan just moves on. -/
def findQtyFrom : Option Char → List Char → Option Nat
  | _, [] => none
  | prev, c :: cs =>
    if c.isDigit && boundaryBefore prev then
      if noWordAfter (cs.dropWhile Char.isDigit).head? = true then
        some (digitsToNat (c :: cs.takeWhile Char.isDigit))
      else findQtyFrom (some c) cs
    else findQtyFrom (some c) cs

/-- `"SHIPPING"` as characters. -/
def shipChars : List Char := "SHIPPING".data

/-- `"INSURANCE"` as characters. -/
def insChars : List Char := "INSURANCE".data

/-- `items[code] = items.get(code, 0) + qty` on an insertion-ordered
association list, as on a Python dict. -/
def upsert : List (String × Nat) → String → Nat → List (String × Nat)
  | [], c, q => [(c, q)]
  | (c0, q0) :: rest, c, q =>
    if c0 = c then (c0, q0 + q) :: rest else (c0, q0) :: upsert rest c q

/-- One iteration of the line loop of `parse_items_from_ocr_text`
(src/app.py lines 115-136): skip-list check, item-code search, first
word-bounded integer, noise bound, accumulate. -/
def processLine (acc : List (String × Nat)) (ln : List Char) : List (String × Nat) :=
  if containsSub shipChars (ln.map Char.toUpper) || containsSub insChars (ln.map Char.toUpper) then
    acc
  else
    match searchItemFrom none ln with
    | none => acc
    | some span =>
      match findQtyFrom none ln with
      | none => acc
      | some qty =>
        if qty = 0 ∨ qty > 999 then acc
        else upsert acc (String.mk (span.map Char.toUpper)) qty

/-- The non-empty stripped lines of the input text. -/
def linesOf (text : String) : List (List Char) :=
  ((splitNl text.data).map stripChars).filter (fun l => !l.isEmpty)

/-- `parse_items_from_ocr_text` (src/app.py lines 102-138): memo-id
search over the whole text, then the per-line item loop. -/
def parse_items_from_ocr_text (text : String) : Option String × List (String × Nat) :=
  ((extractMemoFrom none text.data).map (fun tok => stripStr (String.mk tok)),
   (linesOf text).foldl processLine [])

/-- First value for a key in an association list (dict / DataFrame-index
lookup). -/
def lookupA {α : Type} : List (String × α) → String → Option α
  | [], _ => none
  | (c, v) :: rest, k => if c = k then some v else lookupA rest k

/-- `str(c).upper().strip()` — the item-code normalization used by
`apply_updates`. -/
def normCode (s : String) : String := stripStr (String.mk (s.data.map Char.toUpper))

/-- `memo_no.strip().upper()` — the memo-id normalization used by
`memo_already_processed`. -/
def normMemo (s : String) : String := String.mk ((stripChars s.data).map Char.toUpper)

/-- `memo_already_processed` (src/app.py lines 152-158) over the list of
`memo_no` values recorded in the TRANSACTIONS_LOG sheet. -/
def memo_already_processed (memo_no : String) (log : List String) : Bool :=
  log.any (fun r => normMemo r = normMemo memo_no)

/-- A TRANSACTIONS_LOG row: `[ts, source, memo_no or "", code, qty_change,
reason, user, ""]` (src/app.py line 204). -/
structure LogEntry where
  ts : String
  source : String
  memo_no : String
  item_code : String
  delta : Int
  reason : String
  user : String
  notes : String
deriving DecidableEq

/-- The `ValueError`s `apply_updates` can raise, carrying the data the
source interpolates into each message. -/
inductive UpdateErr where
  | unknownCodes (missing : List String)
  | insufficientStock (code : String) (current new : Int)
  | rowNotFound (code : String)
deriving DecidableEq

/-- `missing = [c for c in preview if str(c).upper().strip() not in
inv_df.index]` (src/app.py line 165). -/
def missingCodes (preview : List (String × Int)) (inv : List (String × Int)) : List String :=
  (preview.filter (fun r => (lookupA inv (normCode r.1)).isNone)).map (fun r => r.1)

/-- The per-row update loop of `apply_updates` (src/app.py lines
170-178): `new = current - qty`, negative-stock guard, `(code, new,
-qty)` triples in row order. -/
def computeUpdates : List (String × Int) → List (String × Int) → Except UpdateErr (List (String × Int × Int))
  | [], _ => .ok []
  | (c, q) :: rest, inv =>
    if (lookupA inv (normCode c)).getD 0 - q < 0 then
      .error (.insufficientStock (normCode c) ((lookupA inv (normCode c)).getD 0)
        ((lookupA inv (normCode c)).getD 0 - q))
    else
      match computeUpdates rest inv with
      | .ok us => .ok ((normCode c, (lookupA inv (normCode c)).getD 0 - q, -q) :: us)
      | .error e => .error e

/-- The row-location pass of `apply_updates` (src/app.py lines 191-195)
against the same snapshot: fails with the could-not-locate error if a
code's row is absent. -/
def locateCheck : List (String × Int × Int) → List (String × Int) → Except UpdateErr Unit
  | [], _ => .ok ()
  | (c, _, _) :: rest, inv =>
    if (lookupA inv c).isSome then locateCheck rest inv else .error (.rowNotFound c)

/-- One appended TRANSACTIONS_LOG row for one update triple. -/
def mkLog (ts source : String) (memo : Option String) (reason user : String)
    (u : String × Int × Int) : LogEntry :=
  ⟨ts, source, memo.getD "", u.1, u.2.2, reason, user, ""⟩

/-- `apply_updates` (src/app.py lines 161-205) as a pure mutation plan:
existence guard with the preview capped to 10 codes, negative-stock loop,
row location, then the log rows stamped with the single clock reading
`ts` (the value `now_str()` returns at src/app.py line 201).  An `error`
result models the raised `ValueError`: no cell write and no log append
happens. -/
def apply_updates (preview : List (String × Int)) (inv : List (String × Int))
    (memo : Option String) (source reason user ts : String) :
    Except UpdateErr (List (String × Int × Int) × List LogEntry) :=
  if (missingCodes preview inv).isEmpty then
    match computeUpdates preview inv with
    | .error e => .error e
    | .ok updates =>
      match locateCheck updates inv with
      | .error e => .error e
      | .ok _ => .ok (updates, updates.map (mkLog ts source memo reason user))
  else .error (.unknownCodes ((missingCodes preview inv).take 10))

/-- Failures of the whole reconciliation flow: the duplicate-memo stop at
src/app.py lines 246-248, or an `apply_updates` error. -/
inductive RecErr where
  | duplicateMemo (memo : String)
  | applyErr (e : UpdateErr)
deriving DecidableEq

/-- Total order on Python strings (code-point lexicographic). -/
def charsLe : List Char → List Char → Bool
  | [], _ => true
  | _ :: _, [] => false
  | a :: as, b :: bs => if a = b then charsLe as bs else decide (a < b)

/-- Python `<=` on strings. -/
def strLe (a b : String) : Bool := charsLe a.data b.data

/-- Insertion step of the `sorted(items.items())` preview order. -/
def insertPair (p : String × Int) : List (String × Int) → List (String × Int)
  | [] => [p]
  | q :: qs => if strLe p.1 q.1 then p :: q :: qs else q :: insertPair p qs

/-- `sorted(items.items())` (src/app.py line 241); item codes are
pairwise distinct dict keys, so sorting by key alone is exact. -/
def sortPairs : List (String × Int) → List (String × Int)
  | [] => []
  | p :: ps => insertPair p (sortPairs ps)

/-- The confirm step: build the sorted preview rows from the parsed items
and run `apply_updates` (src/app.py lines 241 and 253). -/
def reconcileApply (items : List (String × Nat)) (inv : List (String × Int))
    (memo : Option String) (source reason user ts : String) :
    Except RecErr (List (String × Int × Int) × List LogEntry) :=
  match apply_updates (sortPairs (items.map (fun p => (p.1, (p.2 : Int))))) inv
      memo source reason user ts with
  | .ok v => .ok v
  | .error e => .error (.applyErr e)

/-- The reconciliation flow for one parsed memo (src/app.py lines
246-253): the duplicate stop `if memo_no and
memo_already_processed(memo_no)` (skipped when the memo id is absent or
empty, by Python truthiness), then `apply_updates` on the sorted
preview. -/
def reconcile (memo : Option String) (items : List (String × Nat)) (inv : List (String × Int))
    (known : List String) (source reason user ts : String) :
    Except RecErr (List (String × Int × Int) × List LogEntry) :=
  match memo with
  | some m =>
    if m ≠ "" ∧ memo_already_processed m known = true then .error (.duplicateMemo m)
    else reconcileApply items inv (some m) source reason user ts
  | none => reconcileApply items inv none source reason user ts

/-- The timestamps of the log rows of a mutation plan (empty on
failure). -/
def logTimestamps (r : Except UpdateErr (List (String × Int × Int) × List LogEntry)) :
    List String :=
  match r with
  | .ok v => v.2.map (fun e => e.ts)
  | .error _ => []

/-! ### Helper lemmas -/

/-- Membership survives `dropWhile`. -/
theorem mem_of_mem_dropWhile {x : Char} {p : Char → Bool} :
    ∀ {l : List Char}, x ∈ l.dropWhile p → x ∈ l := by
  intro l
  induction l with
  | nil => intro h; exact absurd h (List.not_mem_nil x)
  | cons a as ih =>
    intro h
    cases hp : p a with
    | true =>
      simp only [List.dropWhile, hp] at h
      exact List.mem_cons_of_mem a (ih h)
    | false =>
      simp only [List.dropWhile, hp] at h
      exact h

/-- `MEMO_RE` cannot match anywhere in text that has no `#` character. -/
theorem matchMemoAt_none_of_noHash {l : List Char} (h : '#' ∉ l) : matchMemoAt l = none := by
  rcases l with _ | ⟨a, _ | ⟨b, _ | ⟨c, _ | ⟨d, rest⟩⟩⟩⟩
  · rfl
  · rfl
  · rfl
  · rfl
  · simp only [matchMemoAt]
    split
    · split
      · rename_i heq
        exfalso
        apply h
        have hm : '#' ∈ dropSpaces rest := by rw [heq]; exact List.mem_cons_self _ _
        have hr : '#' ∈ rest := mem_of_mem_dropWhile hm
        simp [hr]
      · rfl
    · rfl

/-- The `MEMO_RE` scan over hash-free text finds nothing. -/
theorem extractMemoFrom_none_of_noHash :
    ∀ (l : List Char) (prev : Option Char), '#' ∉ l → extractMemoFrom prev l = none := by
  intro l
  induction l with
  | nil => intro prev _; rfl
  | cons c cs ih =>
    intro prev h
    have hm : matchMemoAt (c :: cs) = none := matchMemoAt_none_of_noHash h
    have hcs : '#' ∉ cs := fun hx => h (List.mem_cons_of_mem c hx)
    have hrec := ih (some c) hcs
    cases hb : boundaryBefore prev with
    | true =>
      simp only [extractMemoFrom, hb, if_true, hm]
      exact hrec
    | false =>
      simp only [extractMemoFrom, hb, Bool.false_eq_true, if_false]
      exact hrec

/-- When every preview code is present in the snapshot, the existence
guard collects nothing. -/
theorem missingCodes_nil {preview inv : List (String × Int)}
    (h : ∀ p ∈ preview, (lookupA inv (normCode p.1)).isSome = true) :
    missingCodes preview inv = [] := by
  induction preview with
  | nil => rfl
  | cons a as ih =>
    have ha := h a (List.mem_cons_self a as)
    have has : ∀ p ∈ as, (lookupA inv (normCode p.1)).isSome = true :=
      fun p hp => h p (List.mem_cons_of_mem a hp)
    have hfa : (lookupA inv (normCode a.1)).isNone = false := by
      rcases hx : lookupA inv (normCode a.1) with _ | v
      · rw [hx] at ha; exact absurd ha (by simp)
      · rfl
    have htail := ih has
    simp only [missingCodes, List.filter] at htail ⊢
    rw [hfa]
    exact htail

/-- The negative-stock loop stops at the first deficient row with the
error carrying that row's code, current stock and resulting new value. -/
theorem computeUpdates_insufficient :
    ∀ (preview inv : List (String × Int)),
      (∃ p ∈ preview, (lookupA inv (normCode p.1)).getD 0 - p.2 < 0) →
      ∃ p ∈ preview, (lookupA inv (normCode p.1)).getD 0 - p.2 < 0 ∧
        computeUpdates preview inv = .error (.insufficientStock (normCode p.1)
          ((lookupA inv (normCode p.1)).getD 0) ((lookupA inv (normCode p.1)).getD 0 - p.2)) := by
  intro preview inv
  induction preview with
  | nil =>
    rintro ⟨p, hp, -⟩
    exact absurd hp (List.not_mem_nil p)
  | cons a as ih =>
    rintro ⟨p, hp, hneg⟩
    obtain ⟨c, q⟩ := a
    by_cases hh : (lookupA inv (normCode c)).getD 0 - q < 0
    · refine ⟨(c, q), List.mem_cons_self _ _, hh, ?_⟩
      simp only [computeUpdates, if_pos hh]
    · have hpas : p ∈ as := by
        rcases List.mem_cons.1 hp with rfl | h2
        · exact absurd hneg hh
        · exact h2
      obtain ⟨p2, hp2, hneg2, heq2⟩ := ih ⟨p, hpas, hneg⟩
      refine ⟨p2, List.mem_cons_of_mem _ hp2, hneg2, ?_⟩
      simp only [computeUpdates, if_neg hh, heq2]

/-- An error of the update loop propagates out of `apply_updates` when
the existence guard passes. -/
theorem apply_updates_error_of_compute {preview inv : List (String × Int)}
    {memo : Option String} {s r u t : String} {e : UpdateErr}
    (hm : missingCodes preview inv = [])
    (hc : computeUpdates preview inv = .error e) :
    apply_updates preview inv memo s r u t = .error e := by
  simp only [apply_updates, hm, List.isEmpty_nil, if_true, hc]

/-- A `take 10` of a non-empty list is non-empty. -/
theorem take10_ne_nil {l : List String} (h : l ≠ []) : l.take 10 ≠ [] := by
  cases l with
  | nil => exact absurd rfl h
  | cons a as => simp [List.take]

/-- Every log row of a successful `apply_updates` carries the single
clock reading `ts`. -/
theorem apply_updates_ts {preview inv : List (String × Int)} {memo : Option String}
    {s r u t : String} {muts : List (String × Int × Int)} {logs : List LogEntry}
    (h : apply_updates preview inv memo s r u t = .ok (muts, logs)) :
    ∀ e ∈ logs, e.ts = t := by
  simp only [apply_updates] at h
  split at h
  · split at h
    · exact Except.noConfusion h
    · split at h
      · exact Except.noConfusion h
      · cases h
        intro e he
        obtain ⟨u0, hu0, rfl⟩ := List.mem_map.1 he
        rfl
  · exact Except.noConfusion h

/-- Timestamp propagation through the confirm step. -/
theorem reconcileApply_ts {items : List (String × Nat)} {inv : List (String × Int)}
    {memo : Option String} {s r u t : String}
    {muts : List (String × Int × Int)} {logs : List LogEntry}
    (h : reconcileApply items inv memo s r u t = .ok (muts, logs)) :
    ∀ e ∈ logs, e.ts = t := by
  simp only [reconcileApply] at h
  split at h
  · rename_i heq
    cases h
    exact apply_updates_ts heq
  · exact Except.noConfusion h

/-- Timestamp propagation through the whole reconciliation flow. -/
theorem reconcile_ts {memo : Option String} {items : List (String × Nat)}
    {inv : List (String × Int)} {known : List String} {s r u t : String}
    {muts : List (String × Int × Int)} {logs : List LogEntry}
    (h : reconcile memo items inv known s r u t = .ok (muts, logs)) :
    ∀ e ∈ logs, e.ts = t := by
  cases memo with
  | none => exact reconcileApply_ts h
  | some m =>
    simp only [reconcile] at h
    split at h
    · exact Except.noConfusion h
    · exact reconcileApply_ts h

/-- Updating a dict entry returns the old value (default 0) plus the new
quantity for the updated key. -/
theorem lookupA_upsert (acc : List (String × Nat)) (c : String) (q : Nat) :
    lookupA (upsert acc c q) c = some ((lookupA acc c).getD 0 + q) := by
  induction acc with
  | nil => simp [upsert, lookupA]
  | cons p rest ih =>
    obtain ⟨c0, q0⟩ := p
    by_cases h : c0 = c
    · subst h
      simp [upsert, lookupA]
    · simp [upsert, lookupA, h, ih]

/-- A dict update with a positive quantity keeps all values positive. -/
theorem upsert_ge_one (c : String) (q : Nat) (hq : 1 ≤ q) :
    ∀ (acc : List (String × Nat)), (∀ p ∈ acc, 1 ≤ p.2) →
      ∀ p ∈ upsert acc c q, 1 ≤ p.2 := by
  intro acc
  induction acc with
  | nil =>
    intro _ p hp
    rw [List.mem_singleton.1 hp]
    exact hq
  | cons a as ih =>
    obtain ⟨c0, q0⟩ := a
    intro hacc p hp
    simp only [upsert] at hp
    by_cases h : c0 = c
    · rw [if_pos h] at hp
      rcases List.mem_cons.1 hp with rfl | h2
      · exact le_trans hq (Nat.le_add_left q q0)
      · exact hacc _ (List.mem_cons_of_mem _ h2)
    · rw [if_neg h] at hp
      rcases List.mem_cons.1 hp with rfl | h2
      · exact hacc _ (List.mem_cons_self _ _)
      · exact ih (fun p2 hp2 => hacc p2 (List.mem_cons_of_mem _ hp2)) _ h2

/-- One parser line step keeps all accumulated quantities positive: the
noise guard admits only quantities in 1..999. -/
theorem processLine_ge_one (ln : List Char) (acc : List (String × Nat))
    (hacc : ∀ p ∈ acc, 1 ≤ p.2) : ∀ p ∈ processLine acc ln, 1 ≤ p.2 := by
  simp only [processLine]
  split
  · exact hacc
  · split
    · exact hacc
    · split
      · exact hacc
      · split
        · exact hacc
        · rename_i span hspan qty hqty hbad
          exact upsert_ge_one _ qty (Nat.one_le_iff_ne_zero.2 (fun h0 => hbad (Or.inl h0)))
            acc hacc

/-- The whole line loop keeps all accumulated quantities positive. -/
theorem foldl_processLine_ge_one :
    ∀ (lines : List (List Char)) (acc : List (String × Nat)),
      (∀ p ∈ acc, 1 ≤ p.2) → ∀ p ∈ lines.foldl processLine acc, 1 ≤ p.2 := by
  intro lines
  induction lines with
  | nil =>
    intro acc hacc
    simpa using hacc
  | cons l ls ih =>
    intro acc hacc
    simp only [List.foldl_cons]
    exact ih _ (processLine_ge_one l acc hacc)

/-! ### Claim theorems -/

/-- C1 (counterexample): on the spec's end-to-end text the parsed
quantity for "GB5W-14K-2" is not 1 — the first word-bounded integer on
the line `GB5W-14K-2  1 unit` is the trailing `2` of the finish suffix,
not the `1`. -/
theorem c1_counterexample :
    lookupA (parse_items_from_ocr_text
      "Memo # : M-42\nBR2Y-14K  3  units\nGB5W-14K-2  1 unit\nShipping 2").2 "GB5W-14K-2" ≠
      some 1 := by
  decide

/-- C1 (amended): on the end-to-end text, `parse` returns memo id "M-42"
and items mapping BR2Y-14K to 3 and GB5W-14K-2 to 2 (the first
word-bounded digit run of the second item line is the code suffix `2`);
with stock 10 and 2 and no known memo ids, reconciliation succeeds with
exactly the mutations ("BR2Y-14K", 7, -3) and ("GB5W-14K-2", 0, -2) and
two log entries with deltas -3 and -2. -/
theorem c1_end_to_end_amended : ∀ (s r u t : String),
    parse_items_from_ocr_text
      "Memo # : M-42\nBR2Y-14K  3  units\nGB5W-14K-2  1 unit\nShipping 2" =
      (some "M-42", [("BR2Y-14K", 3), ("GB5W-14K-2", 2)]) ∧
    reconcile (some "M-42") [("BR2Y-14K", 3), ("GB5W-14K-2", 2)]
        [("BR2Y-14K", (10 : Int)), ("GB5W-14K-2", (2 : Int))] [] s r u t =
      .ok ([("BR2Y-14K", 7, -3), ("GB5W-14K-2", 0, -2)],
        [⟨t, s, "M-42", "BR2Y-14K", -3, r, u, ""⟩,
         ⟨t, s, "M-42", "GB5W-14K-2", -2, r, u, ""⟩]) :=
  fun _ _ _ _ => ⟨by decide, rfl⟩

/-- C2: when every preview code exists in the snapshot and some row would
drive its stock negative, `apply_updates` fails with the insufficient
stock error naming that row's code, its current stock, and the deficient
new value current minus requested (so the requested quantity is named by
the error data), and the `error` result carries no mutations, cell writes
or log rows; in particular stock 5 against requested 7 fails this way. -/
theorem c2_insufficient_stock_guard :
    (∀ (preview inv : List (String × Int)) (memo : Option String) (s r u t : String),
      (∀ p ∈ preview, (lookupA inv (normCode p.1)).isSome = true) →
      (∃ p ∈ preview, (lookupA inv (normCode p.1)).getD 0 - p.2 < 0) →
      ∃ p ∈ preview, ∃ cur : Int, lookupA inv (normCode p.1) = some cur ∧ cur - p.2 < 0 ∧
        apply_updates preview inv memo s r u t =
          .error (.insufficientStock (normCode p.1) cur (cur - p.2))) ∧
    apply_updates [("BR2Y-14K", (7 : Int))] [("BR2Y-14K", (5 : Int))] none
        "Memo PDF" "Sale" "Emp" "TS" =
      .error (.insufficientStock "BR2Y-14K" 5 (-2)) := by
  constructor
  · intro preview inv memo s r u t hall hex
    obtain ⟨p, hp, hneg, heq⟩ := computeUpdates_insufficient preview inv hex
    obtain ⟨cur, hcur⟩ := Option.isSome_iff_exists.1 (hall p hp)
    have hneg2 : cur - p.2 < 0 := by rw [hcur] at hneg; simpa using hneg
    refine ⟨p, hp, cur, hcur, hneg2, ?_⟩
    have hres := @apply_updates_error_of_compute preview inv memo s r u t _
      (missingCodes_nil hall) heq
    rw [hcur] at hres
    simpa using hres
  · rfl

/-- C2 witness: the guard fires on stock 5 against requested 7. -/
theorem c2_insufficient_stock_guard_witness :
    (∀ p ∈ [("BR2Y-14K", (7 : Int))],
      (lookupA [("BR2Y-14K", (5 : Int))] (normCode p.1)).isSome = true) ∧
    (∃ p ∈ [("BR2Y-14K", (7 : Int))], ∃ cur : Int,
      lookupA [("BR2Y-14K", (5 : Int))] (normCode p.1) = some cur ∧ cur - p.2 < 0 ∧
      apply_updates [("BR2Y-14K", (7 : Int))] [("BR2Y-14K", (5 : Int))] none "a" "b" "c" "d" =
        .error (.insufficientStock (normCode p.1) cur (cur - p.2))) :=
  ⟨by decide, c2_insufficient_stock_guard.1 [("BR2Y-14K", (7 : Int))] [("BR2Y-14K", (5 : Int))]
    none "a" "b" "c" "d" (by decide) (by decide)⟩

/-- C3: a present, non-empty memo id whose normalization is already in
the known history stops processing with the duplicate error before any
mutation or log entry exists; with an absent memo id the duplicate check
is skipped entirely (the known-history argument is irrelevant);
concretely "M-100" against known history ["M-100"] fails, and against an
empty history the same input succeeds with stock 5 against requested 1. -/
theorem c3_duplicate_memo_guard :
    ∀ (m : String) (known : List String) (items : List (String × Nat))
      (inv : List (String × Int)) (s r u t : String),
      (m ≠ "" → memo_already_processed m known = true →
        reconcile (some m) items inv known s r u t = .error (.duplicateMemo m)) ∧
      reconcile none items inv known s r u t = reconcile none items inv [] s r u t ∧
      reconcile (some "M-100") [("BR2Y-14K", 1)] [("BR2Y-14K", (5 : Int))] ["M-100"] s r u t =
        .error (.duplicateMemo "M-100") ∧
      reconcile (some "M-100") [("BR2Y-14K", 1)] [("BR2Y-14K", (5 : Int))] [] s r u t =
        .ok ([("BR2Y-14K", 4, -1)], [⟨t, s, "M-100", "BR2Y-14K", -1, r, u, ""⟩]) := by
  intro m known items inv s r u t
  refine ⟨?_, rfl, rfl, rfl⟩
  intro hm hdup
  simp only [reconcile]
  exact if_pos ⟨hm, hdup⟩

/-- C3 witness: memo id "M-100" against known history ["M-100"] is
rejected as a duplicate. -/
theorem c3_duplicate_memo_guard_witness :
    reconcile (some "M-100") [("BR2Y-14K", 1)] [("BR2Y-14K", (5 : Int))] ["M-100"]
      "a" "b" "c" "d" = .error (.duplicateMemo "M-100") :=
  (c3_duplicate_memo_guard "M-100" ["M-100"] [("BR2Y-14K", 1)] [("BR2Y-14K", (5 : Int))]
    "a" "b" "c" "d").1 (by decide) (by decide)

/-- C4: if any preview code is missing from the snapshot,
`apply_updates` fails with the unknown-codes error, whose listed codes
are a non-empty list of at most 10 entries, each a preview code absent
from the snapshot, and the `error` result carries no mutations, cell
writes or log rows. -/
theorem c4_unknown_code_guard :
    ∀ (preview inv : List (String × Int)) (memo : Option String) (s r u t : String),
      (∃ p ∈ preview, lookupA inv (normCode p.1) = none) →
      ∃ ms : List String,
        apply_updates preview inv memo s r u t = .error (.unknownCodes ms) ∧
        ms ≠ [] ∧ ms.length ≤ 10 ∧
        ∀ c ∈ ms, (∃ q : Int, (c, q) ∈ preview) ∧ lookupA inv (normCode c) = none := by
  intro preview inv memo s r u t hex
  obtain ⟨p, hp, hnone⟩ := hex
  have hmem : p ∈ preview.filter (fun x => (lookupA inv (normCode x.1)).isNone) :=
    List.mem_filter.2 ⟨hp, by rw [hnone]; rfl⟩
  have hmc : missingCodes preview inv ≠ [] := by
    intro h0
    have hin : p.1 ∈ missingCodes preview inv := List.mem_map_of_mem _ hmem
    rw [h0] at hin
    exact List.not_mem_nil _ hin
  refine ⟨(missingCodes preview inv).take 10, ?_, take10_ne_nil hmc, ?_, ?_⟩
  · simp only [apply_updates]
    rw [if_neg (fun hemp => hmc (List.isEmpty_iff.1 hemp))]
  · rw [List.length_take]
    exact min_le_left _ _
  · intro c hc
    have hc2 : c ∈ missingCodes preview inv := List.take_subset _ _ hc
    obtain ⟨x, hx, hxc⟩ := List.mem_map.1 hc2
    obtain ⟨hxp, hxcond⟩ := List.mem_filter.1 hx
    subst hxc
    refine ⟨⟨x.2, by simpa using hxp⟩, ?_⟩
    exact Option.isNone_iff_eq_none.1 hxcond

/-- C4 witness: a preview row whose code is not in the (empty) snapshot
is rejected with a bounded unknown-codes list. -/
theorem c4_unknown_code_guard_witness :
    (∃ p ∈ [("BR9Z-14K", (1 : Int))],
      lookupA ([] : List (String × Int)) (normCode p.1) = none) ∧
    (∃ ms : List String,
      apply_updates [("BR9Z-14K", (1 : Int))] [] none "a" "b" "c" "d" =
        .error (.unknownCodes ms) ∧
      ms ≠ [] ∧ ms.length ≤ 10 ∧
      ∀ c ∈ ms, (∃ q : Int, (c, q) ∈ [("BR9Z-14K", (1 : Int))]) ∧
        lookupA ([] : List (String × Int)) (normCode c) = none) :=
  ⟨by decide, c4_unknown_code_guard [("BR9Z-14K", (1 : Int))] [] none "a" "b" "c" "d" (by decide)⟩

/-- C5 (counterexample): "Memo: M-7" — the memo keyword with a separator
but without a "#" — yields no memo id, because `MEMO_RE` requires a
literal `#` between "Memo" and the captured token. -/
theorem c5_counterexample :
    (parse_items_from_ocr_text "Memo: M-7").1 ≠ some "M-7" := by
  decide

/-- C5 (amended): the memo identifier is the first case-insensitive match
of "Memo" followed by a REQUIRED "#", an optional ":" or "-" separator,
and a token of letters, digits and hyphens: any text containing no "#"
yields no memo id, "Memo #: M-7" and "Memo # : M-42" and "Memo # M-7"
yield their tokens, and absence of any match yields no memo id without
being an error. -/
theorem c5_memo_hash_required :
    (∀ text : String, '#' ∉ text.data → (parse_items_from_ocr_text text).1 = none) ∧
    (parse_items_from_ocr_text "Memo #: M-7").1 = some "M-7" ∧
    (parse_items_from_ocr_text "Memo # : M-42").1 = some "M-42" ∧
    (parse_items_from_ocr_text "Memo # M-7").1 = some "M-7" ∧
    (parse_items_from_ocr_text "no memo anywhere 12").1 = none := by
  refine ⟨?_, by decide, by decide, by decide, by decide⟩
  intro text h
  show (extractMemoFrom none text.data).map (fun tok => stripStr (String.mk tok)) = none
  rw [extractMemoFrom_none_of_noHash text.data none h]
  rfl

/-- C5 witness: "Memo: M-7" contains no "#", so its memo id is none. -/
theorem c5_memo_hash_required_witness :
    ('#' ∉ "Memo: M-7".data) ∧ (parse_items_from_ocr_text "Memo: M-7").1 = none :=
  ⟨by decide, c5_memo_hash_required.1 "Memo: M-7" (by decide)⟩

/-- C6 (counterexample): the engine does read the clock itself —
`apply_updates` stamps its log rows with the `now_str()` reading taken
inside the call (modelled as the `ts` argument), so two calls on the same
three reconciliation inputs but different clock readings produce
different log timestamps, refuting caller-supplied-timestamp purity. -/
theorem c6_counterexample :
    logTimestamps (apply_updates [("BR2Y-14K", (1 : Int))] [("BR2Y-14K", (5 : Int))] none
        "Memo PDF" "Sale" "Emp" "2024-01-01 00:00:00") ≠
      logTimestamps (apply_updates [("BR2Y-14K", (1 : Int))] [("BR2Y-14K", (5 : Int))] none
        "Memo PDF" "Sale" "Emp" "2024-01-01 00:00:01") := by
  decide

/-- C6 (amended): reconciliation is deterministic in its three inputs
together with the single internal clock reading of `apply_updates`:
with that reading fixed the call is pure (trivially equal to itself), and
every log entry of a successful call carries exactly that reading as its
timestamp. -/
theorem c6_determinism_given_clock :
    ∀ (memo : Option String) (items : List (String × Nat)) (inv : List (String × Int))
      (known : List String) (s r u t : String)
      (muts : List (String × Int × Int)) (logs : List LogEntry),
      reconcile memo items inv known s r u t = reconcile memo items inv known s r u t ∧
      (reconcile memo items inv known s r u t = .ok (muts, logs) → ∀ e ∈ logs, e.ts = t) :=
  fun _ _ _ _ _ _ _ _ _ _ => ⟨rfl, reconcile_ts⟩

/-- C6 witness: a concrete successful reconciliation whose log entry is
stamped with the supplied clock reading. -/
theorem c6_determinism_given_clock_witness :
    reconcile none [("BR2Y-14K", 1)] [("BR2Y-14K", (5 : Int))] [] "Memo PDF" "Sale" "Emp" "TS" =
      .ok ([("BR2Y-14K", 4, -1)], [⟨"TS", "Memo PDF", "", "BR2Y-14K", -1, "Sale", "Emp", ""⟩]) ∧
    (∀ e ∈ [(⟨"TS", "Memo PDF", "", "BR2Y-14K", -1, "Sale", "Emp", ""⟩ : LogEntry)],
      e.ts = "TS") :=
  ⟨rfl, (c6_determinism_given_clock none [("BR2Y-14K", 1)] [("BR2Y-14K", (5 : Int))] []
    "Memo PDF" "Sale" "Emp" "TS" [("BR2Y-14K", 4, -1)]
    [⟨"TS", "Memo PDF", "", "BR2Y-14K", -1, "Sale", "Emp", ""⟩]).2 rfl⟩

/-- C7: quantities for the same item code on multiple lines are summed,
not overwritten: the dict update adds the line quantity to the previous
total for that code, and a text carrying the same code on two lines with
quantities 3 and 5 parses to that code mapping to 8. -/
theorem c7_same_code_lines_sum :
    (∀ (acc : List (String × Nat)) (c : String) (q : Nat),
      lookupA (upsert acc c q) c = some ((lookupA acc c).getD 0 + q)) ∧
    lookupA (parse_items_from_ocr_text "BR2Y-14K 3\nBR2Y-14K 5").2 "BR2Y-14K" = some 8 :=
  ⟨lookupA_upsert, by decide⟩

/-- C8: a line whose first word-bounded digit run parses to 0 or to more
than 999 contributes nothing to the items mapping, even when the line
holds a valid item code. -/
theorem c8_noise_quantity_skipped :
    ∀ (acc : List (String × Nat)) (ln : List Char) (q : Nat),
      findQtyFrom none ln = some q → q = 0 ∨ q > 999 → processLine acc ln = acc := by
  intro acc ln q hq hbad
  simp only [processLine]
  split
  · rfl
  · split
    · rfl
    · rw [hq]
      simp only [if_pos hbad]

/-- C8 witness: the line "BR2Y-14K 1000" has first bounded digit run
1000 and contributes nothing. -/
theorem c8_noise_quantity_skipped_witness :
    findQtyFrom none "BR2Y-14K 1000".data = some 1000 ∧
    processLine [] "BR2Y-14K 1000".data = [] :=
  ⟨by decide, c8_noise_quantity_skipped [] "BR2Y-14K 1000".data 1000 (by decide)
    (Or.inr (by decide))⟩

/-- C9: a line whose uppercased form contains "SHIPPING" or "INSURANCE"
never contributes an item, even when a valid code pattern and quantity
are present. -/
theorem c9_skip_list_lines :
    ∀ (acc : List (String × Nat)) (ln : List Char),
      (containsSub shipChars (ln.map Char.toUpper) = true ∨
        containsSub insChars (ln.map Char.toUpper) = true) →
      processLine acc ln = acc := by
  intro acc ln h
  simp only [processLine]
  rcases h with h | h <;> simp [h]

/-- C9 witness: the line "Shipping BR2Y-14K 2" holds a valid code and
quantity yet contributes nothing. -/
theorem c9_skip_list_lines_witness :
    containsSub shipChars ("Shipping BR2Y-14K 2".data.map Char.toUpper) = true ∧
    processLine [] "Shipping BR2Y-14K 2".data = [] :=
  ⟨by decide, c9_skip_list_lines [] "Shipping BR2Y-14K 2".data (Or.inl (by decide))⟩

/-- C10: every quantity in a parse result is at least 1, while the 999
bound is per line only: aggregating the same code across lines can exceed
999, as with 999 + 999 = 1998. -/
theorem c10_quantity_bounds :
    (∀ (text c : String) (q : Nat), (c, q) ∈ (parse_items_from_ocr_text text).2 → 1 ≤ q) ∧
    (∃ q : Nat, lookupA (parse_items_from_ocr_text "BR2Y-14K 999\nBR2Y-14K 999").2 "BR2Y-14K" =
      some q ∧ 999 < q) := by
  constructor
  · intro text c q hm
    exact foldl_processLine_ge_one (linesOf text) []
      (fun p hp => absurd hp (List.not_mem_nil p)) (c, q) hm
  · exact ⟨1998, by decide, by decide⟩

/-- C10 witness: a concrete parse result entry with its quantity at
least 1. -/
theorem c10_quantity_bounds_witness :
    ("BR2Y-14K", 3) ∈ (parse_items_from_ocr_text "BR2Y-14K 3").2 ∧ 1 ≤ 3 :=
  ⟨by decide, c10_quantity_bounds.1 "BR2Y-14K 3" "BR2Y-14K" 3 (by decide)⟩
